import Mathlib

/-!
Shallow embedding of the core of the `openai-enhanced-sdk` TypeScript client
(`src/openai-client.ts`, `src/errors.ts`): the streaming response decoder
(`streamAsyncIterable`), the HTTP error classifier (`handleError`), and the
conversation context buffer (`addToContext` / `addBatchToContext` /
`getContext` / `createChatCompletion`).  Text is modelled as `List Char`;
JavaScript string methods used by the source (`trim`, `split('\n')`,
`replace(pat, '')`, `startsWith`) are given faithful definitions below, and
`JSON.parse` is modelled by an executable recursive-descent parser covering
the JSON fragment the wire protocol uses (strings with the simple escapes,
integer numbers, arrays, objects, booleans, null; a parse failure models the
exception `JSON.parse` throws).
-/

namespace OpenAISDK

/-- Whitespace recognised by JavaScript `String.prototype.trim` (ASCII part:
space, tab, line feed, carriage return, vertical tab, form feed). -/
def jsWs (c : Char) : Bool :=
  c = ' ' || c = '\t' || c = '\n' || c = '\r' || c = '\x0b' || c = '\x0c'

/-- Remove the maximal trailing run of JS whitespace (the `trimEnd` half of
JavaScript `trim`). -/
def trimEnd : List Char → List Char
  | [] => []
  | c :: s =>
    if (trimEnd s).isEmpty && jsWs c then [] else c :: trimEnd s

/-- JavaScript `String.prototype.trim`: drop leading and trailing whitespace. -/
def jsTrim (s : List Char) : List Char :=
  trimEnd (s.dropWhile jsWs)

/-- JavaScript `str.split('\n')`: split on every newline, keeping empty
pieces; the empty string yields one empty piece. -/
def splitNl : List Char → List (List Char)
  | [] => [[]]
  | c :: s =>
    if c = '\n' then [] :: splitNl s
    else
      match splitNl s with
      | [] => [[c]]
      | p :: ps => (c :: p) :: ps

/-- JavaScript `str.replace(pat, '')` with a string pattern: delete the first
occurrence of `pat` (if any) and leave the rest unchanged. -/
def replaceFirst : List Char → List Char → List Char
  | [], _ => []
  | c :: s, pat =>
    if pat.isPrefixOf (c :: s) then (c :: s).drop pat.length
    else c :: replaceFirst s pat

/-- Parsed JSON values, as produced by the model of `JSON.parse`.  Numbers
are modelled over the integer fragment of JSON (the streaming protocol and
error bodies exercised here carry only integers); object fields keep source
order, and lookup takes the last binding, as JavaScript object literals do. -/
inductive Json where
  | null : Json
  | bool (b : Bool) : Json
  | num (n : Int) : Json
  | str (s : List Char) : Json
  | arr (xs : List Json) : Json
  | obj (kvs : List (List Char × Json)) : Json

/-- JSON structural whitespace (RFC 8259: space, tab, line feed, carriage
return). -/
def jsonWs (c : Char) : Bool :=
  c = ' ' || c = '\t' || c = '\n' || c = '\r'

/-- Skip JSON structural whitespace. -/
def skipWs (s : List Char) : List Char :=
  s.dropWhile jsonWs

/-- Value of a decimal digit string. -/
def digitsToNat (ds : List Char) : Nat :=
  ds.foldl (fun acc c => acc * 10 + (c.toNat - '0'.toNat)) 0

/-- Parse a JSON unsigned integer literal: a bare `0`, or a nonzero digit
followed by digits (JSON forbids leading zeros). -/
def parseNat (s : List Char) : Option (Nat × List Char) :=
  match s with
  | [] => none
  | c :: r =>
    if c = '0' then some (0, r)
    else if c.isDigit then
      some (digitsToNat ((c :: r).takeWhile Char.isDigit),
            (c :: r).dropWhile Char.isDigit)
    else none

/-- JSON string escape characters supported by the model (`\" \\ \/ \b \f
\n \r \t`). -/
def escChar (c : Char) : Option Char :=
  if c = '"' then some '"'
  else if c = '\\' then some '\\'
  else if c = '/' then some '/'
  else if c = 'b' then some '\x08'
  else if c = 'f' then some '\x0c'
  else if c = 'n' then some '\n'
  else if c = 'r' then some '\r'
  else if c = 't' then some '\t'
  else none

/-- Parse the body of a JSON string (opening quote already consumed),
returning the decoded characters and the rest of the input. -/
def parseStrBody : Nat → List Char → Option (List Char × List Char)
  | 0, _ => none
  | _ + 1, [] => none
  | fuel + 1, c :: r =>
    if c = '"' then some ([], r)
    else if c = '\\' then
      match r with
      | [] => none
      | e :: r2 =>
        match escChar e with
        | none => none
        | some ec =>
          match parseStrBody fuel r2 with
          | none => none
          | some (cs, r3) => some (ec :: cs, r3)
    else if c.toNat < 32 then none
    else
      match parseStrBody fuel r with
      | none => none
      | some (cs, r2) => some (c :: cs, r2)

mutual

/-- Parse one JSON value from the front of the input (leading whitespace
already skipped), returning it with the unconsumed rest. -/
def parseVal : Nat → List Char → Option (Json × List Char)
  | 0, _ => none
  | fuel + 1, s =>
    match s with
    | 'n' :: 'u' :: 'l' :: 'l' :: r => some (.null, r)
    | 't' :: 'r' :: 'u' :: 'e' :: r => some (.bool true, r)
    | 'f' :: 'a' :: 'l' :: 's' :: 'e' :: r => some (.bool false, r)
    | '"' :: r =>
      match parseStrBody fuel r with
      | none => none
      | some (cs, r2) => some (.str cs, r2)
    | '-' :: r =>
      match parseNat r with
      | none => none
      | some (n, r2) => some (.num (-(n : Int)), r2)
    | '[' :: r =>
      match skipWs r with
      | ']' :: r2 => some (.arr [], r2)
      | r2 =>
        match parseArrItems fuel r2 with
        | none => none
        | some (xs, r3) => some (.arr xs, r3)
    | '\x7b' :: r =>
      match skipWs r with
      | '\x7d' :: r2 => some (.obj [], r2)
      | r2 =>
        match parseObjItems fuel r2 with
        | none => none
        | some (kvs, r3) => some (.obj kvs, r3)
    | c :: r =>
      if c.isDigit then
        match parseNat (c :: r) with
        | none => none
        | some (n, r2) => some (.num (n : Int), r2)
      else none
    | [] => none

/-- Parse the comma-separated items of a nonempty JSON array, up to and
including the closing bracket. -/
def parseArrItems : Nat → List Char → Option (List Json × List Char)
  | 0, _ => none
  | fuel + 1, s =>
    match parseVal fuel (skipWs s) with
    | none => none
    | some (v, r) =>
      match skipWs r with
      | ',' :: r2 =>
        match parseArrItems fuel r2 with
        | none => none
        | some (vs, r3) => some (v :: vs, r3)
      | ']' :: r2 => some ([v], r2)
      | _ => none

/-- Parse the comma-separated members of a nonempty JSON object, up to and
including the closing brace. -/
def parseObjItems : Nat → List Char → Option (List (List Char × Json) × List Char)
  | 0, _ => none
  | fuel + 1, s =>
    match skipWs s with
    | '"' :: r =>
      match parseStrBody fuel r with
      | none => none
      | some (k, r2) =>
        match skipWs r2 with
        | ':' :: r3 =>
          match parseVal fuel (skipWs r3) with
          | none => none
          | some (v, r4) =>
            match skipWs r4 with
            | ',' :: r5 =>
              match parseObjItems fuel r5 with
              | none => none
              | some (kvs, r6) => some ((k, v) :: kvs, r6)
            | '\x7d' :: r5 => some ([(k, v)], r5)
            | _ => none
        | _ => none
    | _ => none

end

/-- Model of JavaScript `JSON.parse`: parse one value, allow surrounding
whitespace, and require the whole input to be consumed; `none` models the
thrown `SyntaxError`. -/
def jsonParse (s : List Char) : Option Json :=
  match parseVal (s.length + 1) (skipWs s) with
  | none => none
  | some (v, r) => if skipWs r = [] then some v else none

/-- The tag checked by `trimmed.startsWith('data:')` in
`streamAsyncIterable`. -/
def dataColon : List Char := "data:".toList

/-- The literal removed by `trimmed.replace('data: ', '')` (note the single
trailing space). -/
def dataTag : List Char := "data: ".toList

/-- The stream-termination sentinel `[DONE]`. -/
def doneTok : List Char := "[DONE]".toList

/-- The payload a line hands to `JSON.parse` (or compares against the
sentinel): `trimmed.replace('data: ', '').trim()` applied to
`line.trim()`, from `streamAsyncIterable` lines 328-330. -/
def lineContent (line : List Char) : List Char :=
  jsTrim (replaceFirst (jsTrim line) dataTag)

/-- What processing one complete line does inside the `for (const line of
lines)` loop of `streamAsyncIterable`: skip it, yield a parsed chunk,
terminate on the sentinel, or fail on bad JSON. -/
inductive LineStep where
  | skip : LineStep
  | item (j : Json) : LineStep
  | done : LineStep
  | fail : LineStep

/-- One iteration of the line loop of `streamAsyncIterable` (lines 327-337):
trim the line; ignore it unless it starts with `data:`; strip the first
`"data: "` and trim; terminate on `[DONE]`; otherwise `JSON.parse` the
payload (yielding it, or raising if it is invalid). -/
def procLine (line : List Char) : LineStep :=
  if dataColon.isPrefixOf (jsTrim line) then
    if lineContent line = doneTok then .done
    else
      match jsonParse (lineContent line) with
      | some j => .item j
      | none => .fail
  else .skip

/-- How a run of the decoder ends: the `[DONE]` sentinel returned from the
generator, the transport stream ending, or `JSON.parse` throwing. -/
inductive Outcome where
  | doneSentinel : Outcome
  | endOfStream : Outcome
  | parseError : Outcome
deriving DecidableEq

/-- Process the complete lines produced by one chunk, in order: the items
yielded, and `some` terminal outcome if the loop returned or threw before
exhausting the lines. -/
def procLines : List (List Char) → List Json × Option Outcome
  | [] => ([], none)
  | l :: ls =>
    match procLine l with
    | .skip => procLines ls
    | .item j =>
      match procLines ls with
      | (js, o) => (j :: js, o)
    | .done => ([], some .doneSentinel)
    | .fail => ([], some .parseError)

/-- The chunk loop of `streamAsyncIterable` (lines 320-338): append the
chunk to the buffer, split on newlines, hold back the final fragment as the
new buffer, process the complete lines; stop at a terminal line or when the
chunks run out (any held-back fragment is discarded). -/
def decodeLoop : List (List Char) → List Char → List Json × Outcome
  | [], _ => ([], .endOfStream)
  | chunk :: rest, buf =>
    match procLines (splitNl (buf ++ chunk)).dropLast with
    | (js, some o) => (js, o)
    | (js, none) =>
      match decodeLoop rest ((splitNl (buf ++ chunk)).getLastD []) with
      | (js2, o) => (js ++ js2, o)

/-- The full observable behaviour of `streamAsyncIterable` on a chunked byte
stream: the sequence of yielded items and how the iteration ended. -/
def decode (chunks : List (List Char)) : List Json × Outcome :=
  decodeLoop chunks []

/-- A thrown JavaScript error object as the library builds them: the class
`name`, the `message`, and the `statusCode` / `data` fields of
`OpenAIError` (absent on a plain built-in `Error`). -/
structure JsError where
  name : List Char
  message : List Char
  statusCode : Option Nat
  data : Option Json

/-- errors.ts: `new OpenAIError(message, statusCode, data)` (base class,
`name = 'OpenAIError'`). -/
def mkOpenAIError (m : List Char) (s : Option Nat) (d : Option Json) : JsError :=
  ⟨"OpenAIError".toList, m, s, d⟩

/-- errors.ts: `new AuthenticationError(message, statusCode, data)`. -/
def mkAuthenticationError (m : List Char) (s : Option Nat) (d : Option Json) : JsError :=
  ⟨"AuthenticationError".toList, m, s, d⟩

/-- errors.ts: `new ValidationError(message, statusCode, data)`. -/
def mkValidationError (m : List Char) (s : Option Nat) (d : Option Json) : JsError :=
  ⟨"ValidationError".toList, m, s, d⟩

/-- errors.ts: `new RateLimitError(message, statusCode, data)`. -/
def mkRateLimitError (m : List Char) (s : Option Nat) (d : Option Json) : JsError :=
  ⟨"RateLimitError".toList, m, s, d⟩

/-- errors.ts: `new APIError(message, statusCode, data)`. -/
def mkAPIError (m : List Char) (s : Option Nat) (d : Option Json) : JsError :=
  ⟨"APIError".toList, m, s, d⟩

/-- A JavaScript built-in `new Error(message)` (as thrown by the context
buffer validation), `name = 'Error'`, no status or data. -/
def mkPlainError (m : List Char) : JsError :=
  ⟨"Error".toList, m, none, none⟩

/-- The `AxiosError` shape `handleError` inspects: `error.response` (status
and parsed JSON body) when the server answered, otherwise `error.request`
truthiness distinguishes a sent-but-unanswered request from a local failure;
`error.message` is the transport-level message. -/
structure AxiosErrorModel where
  response : Option (Nat × Json)
  hasRequest : Bool
  message : List Char

/-- Field lookup in a parsed JSON object; on duplicate keys the last binding
wins, as with JavaScript property assignment during `JSON.parse`. -/
def jsonLookup : List (List Char × Json) → List Char → Option Json
  | [], _ => none
  | (k, v) :: rest, key =>
    match jsonLookup rest key with
    | some r => some r
    | none => if k = key then some v else none

/-- The optional chain `(data as ErrorResponse)?.error?.message`: the vendor
body's `error.message` field, when the body is an object whose `error` field
is an object whose `message` field is a string (per the `ErrorResponse`
type). -/
def vendorMessage (d : Json) : Option (List Char) :=
  match d with
  | .obj kvs =>
    match jsonLookup kvs "error".toList with
    | some (.obj kvs2) =>
      match jsonLookup kvs2 "message".toList with
      | some (.str s) => some s
      | _ => none
    | _ => none
  | _ => none

/-- JavaScript `a || b` on an optional string `a`: `b` when `a` is absent or
falsy (the empty string), `a` otherwise. -/
def jsOrString (a : Option (List Char)) (b : List Char) : List Char :=
  match a with
  | some s => if s.isEmpty then b else s
  | none => b

/-- `handleError` (openai-client.ts lines 122-142): classify a failed
request into the error taxonomy.  With a response: message is
`data?.error?.message || error.message`, and status 400 / 401 / 429 /
anything else selects `ValidationError` / `AuthenticationError` /
`RateLimitError` / `APIError`, carrying the status and raw body.  Without a
response: base `OpenAIError` with the message prefixed `Network error: ` if
the request was sent, `Error: ` otherwise. -/
def handleError (e : AxiosErrorModel) : JsError :=
  match e.response with
  | some (status, d) =>
    if status = 400 then
      mkValidationError (jsOrString (vendorMessage d) e.message) (some status) (some d)
    else if status = 401 then
      mkAuthenticationError (jsOrString (vendorMessage d) e.message) (some status) (some d)
    else if status = 429 then
      mkRateLimitError (jsOrString (vendorMessage d) e.message) (some status) (some d)
    else
      mkAPIError (jsOrString (vendorMessage d) e.message) (some status) (some d)
  | none =>
    if e.hasRequest then
      mkOpenAIError ("Network error: ".toList ++ e.message) none none
    else
      mkOpenAIError ("Error: ".toList ++ e.message) none none

/-- A value passed to `addToContext`, with the `role` an arbitrary string
and the `content` an arbitrary JavaScript value, so that the runtime
validation (`content` must be a string) is representable.  A valid entry is
the `ContextEntry` of types.ts. -/
structure ContextEntry where
  role : List Char
  content : Json

/-- The role whitelist `['system', 'user', 'assistant']` of
`addToContext`. -/
def validRoles : List (List Char) :=
  ["system".toList, "user".toList, "assistant".toList]

/-- Whether a JavaScript value is a string (`typeof x === 'string'`). -/
def jsIsString : Json → Bool
  | .str _ => true
  | _ => false

/-- The validation test of `addToContext` (line 183-187): the entry is an
object (always true for the record model), its role is whitelisted, and its
content is a string. -/
def isValidEntry (e : ContextEntry) : Bool :=
  validRoles.contains e.role && jsIsString e.content

/-- The message of the error thrown by `addToContext` on an invalid
entry. -/
def ctxErrMsg : List Char :=
  "Context entry must be an object with role (\"system\", \"user\", or \"assistant\") and content properties".toList

/-- The message of the error thrown by `addBatchToContext` on a non-array
input. -/
def batchErrMsg : List Char :=
  "Input must be an array of context entries".toList

/-- `addToContext` as a state transition on the context buffer
(openai-client.ts lines 182-194): push the entry if valid, else throw a
plain `Error` and leave the buffer untouched.  Result: the buffer after the
call and the thrown error, if any. -/
def addToContext (buf : List ContextEntry) (e : ContextEntry) :
    List ContextEntry × Option JsError :=
  if isValidEntry e then (buf ++ [e], none)
  else (buf, some (mkPlainError ctxErrMsg))

/-- The `for (const contextEntry of contextEntries)` loop of
`addBatchToContext`: append entries one at a time, stopping at (and
propagating) the first thrown error; entries appended before the failure
stay appended. -/
def addBatchLoop : List ContextEntry → List ContextEntry →
    List ContextEntry × Option JsError
  | buf, [] => (buf, none)
  | buf, e :: es =>
    match addToContext buf e with
    | (buf2, none) => addBatchLoop buf2 es
    | (buf2, some err) => (buf2, some err)

/-- `addBatchToContext` (openai-client.ts lines 206-214): the input is
either an array of entries (`some`) or any non-array value (`none`, which
fails the `Array.isArray` test and throws). -/
def addBatchToContext (buf : List ContextEntry)
    (input : Option (List ContextEntry)) : List ContextEntry × Option JsError :=
  match input with
  | some entries => addBatchLoop buf entries
  | none => (buf, some (mkPlainError batchErrMsg))

/-- `getContext` (lines 222-224): returns the context buffer itself. -/
def getContext (buf : List ContextEntry) : List ContextEntry := buf

/-- `clearContext` (lines 231-233): replaces the buffer with an empty
array. -/
def clearContext (_buf : List ContextEntry) : List ContextEntry := []

/-- The fields of `CreateChatCompletionOptions` relevant to payload
assembly: the caller's messages plus the scalar options carried through by
the `{ ...options }` spread (represented by `model` and `stream`). -/
structure ChatOptions where
  model : List Char
  messages : List ContextEntry
  stream : Bool

/-- The payload assembly of `createChatCompletion` (lines 298-315):
`messages = [...this.context, ...options.messages]`, `payload = { ...options,
messages }`.  Returns the payload and the context buffer after the call
(which the method never mutates). -/
def buildChatPayload (context : List ContextEntry) (o : ChatOptions) :
    ChatOptions × List ContextEntry :=
  ({ o with messages := context ++ o.messages }, context)

theorem splitNl_ne_nil (s : List Char) : splitNl s ≠ [] := by
  induction s with
  | nil => simp [splitNl]
  | cons c r ih =>
    by_cases h : c = '\n'
    · simp [splitNl, h]
    · simp only [splitNl, if_neg h]
      cases hs : splitNl r with
      | nil => exact absurd hs ih
      | cons p ps => simp

theorem splitNl_cons_nl (r : List Char) : splitNl ('\n' :: r) = [] :: splitNl r := by
  simp [splitNl]

theorem splitNl_cons_ne (c : Char) (r : List Char) (h : ¬ c = '\n') :
    splitNl (c :: r) =
      (c :: (splitNl r).headD []) :: (splitNl r).tail := by
  simp only [splitNl, if_neg h]
  cases hs : splitNl r with
  | nil => exact absurd hs (splitNl_ne_nil r)
  | cons p ps => simp

theorem getLastD_indep {α : Type} (l : List α) (hl : l ≠ []) (d d' : α) :
    l.getLastD d = l.getLastD d' := by
  cases l with
  | nil => exact absurd rfl hl
  | cons a l' => rw [List.getLastD_cons, List.getLastD_cons]

theorem splitNl_append (x y : List Char) :
    splitNl (x ++ y) =
      (splitNl x).dropLast ++ splitNl ((splitNl x).getLastD [] ++ y) := by
  induction x with
  | nil => simp [splitNl]
  | cons c r ih =>
    by_cases h : c = '\n'
    · subst h
      rw [List.cons_append, splitNl_cons_nl, splitNl_cons_nl, ih,
        List.dropLast_cons_of_ne_nil (splitNl_ne_nil r), List.getLastD_cons,
        List.cons_append]
    · rw [List.cons_append, splitNl_cons_ne c (r ++ y) h, splitNl_cons_ne c r h, ih]
      cases hs : splitNl r with
      | nil => exact absurd hs (splitNl_ne_nil r)
      | cons p ps =>
        cases ps with
        | nil =>
          simp [splitNl_cons_ne c (p ++ y) h]
        | cons p2 ps2 =>
          simp only [List.headD_cons, List.tail_cons, List.dropLast_cons_of_ne_nil
            (List.cons_ne_nil p2 ps2), List.getLastD_cons, List.cons_append]

theorem procLines_cons_skip {l : List Char} (ls : List (List Char))
    (h : procLine l = .skip) : procLines (l :: ls) = procLines ls := by
  simp [procLines, h]

theorem procLines_cons_item {l : List Char} {j : Json} (ls : List (List Char))
    (h : procLine l = .item j) :
    procLines (l :: ls) = (j :: (procLines ls).1, (procLines ls).2) := by
  simp [procLines, h]

theorem procLines_cons_done {l : List Char} (ls : List (List Char))
    (h : procLine l = .done) : procLines (l :: ls) = ([], some .doneSentinel) := by
  simp [procLines, h]

theorem procLines_cons_fail {l : List Char} (ls : List (List Char))
    (h : procLine l = .fail) : procLines (l :: ls) = ([], some .parseError) := by
  simp [procLines, h]

theorem procLines_append_none {l1 : List (List Char)} (l2 : List (List Char))
    (h : (procLines l1).2 = none) :
    procLines (l1 ++ l2) =
      ((procLines l1).1 ++ (procLines l2).1, (procLines l2).2) := by
  induction l1 with
  | nil => simp [procLines]
  | cons l ls ih =>
    cases hl : procLine l with
    | skip =>
      rw [procLines_cons_skip ls hl] at h
      rw [List.cons_append, procLines_cons_skip (ls ++ l2) hl,
        procLines_cons_skip ls hl, ih h]
    | item j =>
      rw [procLines_cons_item ls hl] at h
      rw [List.cons_append, procLines_cons_item (ls ++ l2) hl,
        procLines_cons_item ls hl, ih h]
      simp
    | done => rw [procLines_cons_done ls hl] at h; simp at h
    | fail => rw [procLines_cons_fail ls hl] at h; simp at h

theorem procLines_append_some {l1 : List (List Char)} (l2 : List (List Char))
    {o : Outcome} (h : (procLines l1).2 = some o) :
    procLines (l1 ++ l2) = procLines l1 := by
  induction l1 with
  | nil => simp [procLines] at h
  | cons l ls ih =>
    cases hl : procLine l with
    | skip =>
      rw [procLines_cons_skip ls hl] at h
      rw [List.cons_append, procLines_cons_skip (ls ++ l2) hl,
        procLines_cons_skip ls hl, ih h]
    | item j =>
      rw [procLines_cons_item ls hl] at h
      simp only at h
      rw [List.cons_append, procLines_cons_item (ls ++ l2) hl,
        procLines_cons_item ls hl, ih h]
    | done =>
      rw [List.cons_append, procLines_cons_done (ls ++ l2) hl,
        procLines_cons_done ls hl]
    | fail =>
      rw [List.cons_append, procLines_cons_fail (ls ++ l2) hl,
        procLines_cons_fail ls hl]

theorem getLastD_append {α : Type} (l1 : List α) {l2 : List α} (h : l2 ≠ [])
    (d : α) : (l1 ++ l2).getLastD d = l2.getLastD d := by
  induction l1 with
  | nil => rfl
  | cons a l ih =>
    rw [List.cons_append, List.getLastD_cons]
    calc (l ++ l2).getLastD a
        = (l ++ l2).getLastD d :=
          getLastD_indep _ (fun hh => h (List.append_eq_nil.mp hh).2) _ _
      _ = l2.getLastD d := ih

theorem decodeLoop_cons_early {buf chunk : List Char} {js : List Json}
    {o : Outcome} (rest : List (List Char))
    (h : procLines (splitNl (buf ++ chunk)).dropLast = (js, some o)) :
    decodeLoop (chunk :: rest) buf = (js, o) := by
  simp [decodeLoop, h]

theorem decodeLoop_cons_cont {buf chunk : List Char} {js : List Json}
    (rest : List (List Char))
    (h : procLines (splitNl (buf ++ chunk)).dropLast = (js, none)) :
    decodeLoop (chunk :: rest) buf =
      (js ++ (decodeLoop rest ((splitNl (buf ++ chunk)).getLastD [])).1,
        (decodeLoop rest ((splitNl (buf ++ chunk)).getLastD [])).2) := by
  simp [decodeLoop, h]

theorem decodeLoop_merge (c1 c2 buf : List Char) (rest : List (List Char)) :
    decodeLoop (c1 :: c2 :: rest) buf = decodeLoop ((c1 ++ c2) :: rest) buf := by
  have hsplit : splitNl (buf ++ (c1 ++ c2)) =
      (splitNl (buf ++ c1)).dropLast ++
        splitNl ((splitNl (buf ++ c1)).getLastD [] ++ c2) := by
    rw [← List.append_assoc, splitNl_append]
  have hp2 := splitNl_ne_nil ((splitNl (buf ++ c1)).getLastD [] ++ c2)
  have hdrop : (splitNl (buf ++ (c1 ++ c2))).dropLast =
      (splitNl (buf ++ c1)).dropLast ++
        (splitNl ((splitNl (buf ++ c1)).getLastD [] ++ c2)).dropLast := by
    rw [hsplit, List.dropLast_append_of_ne_nil _ hp2]
  have hlast : (splitNl (buf ++ (c1 ++ c2))).getLastD [] =
      (splitNl ((splitNl (buf ++ c1)).getLastD [] ++ c2)).getLastD [] := by
    rw [hsplit, getLastD_append _ hp2]
  cases h1 : procLines (splitNl (buf ++ c1)).dropLast with
  | mk js1 o1 =>
    cases o1 with
    | some o =>
      rw [decodeLoop_cons_early (c2 :: rest) h1,
        decodeLoop_cons_early rest (show procLines
          (splitNl (buf ++ (c1 ++ c2))).dropLast = (js1, some o) by
          rw [hdrop, procLines_append_some _ (by rw [h1]), h1])]
    | none =>
      rw [decodeLoop_cons_cont (c2 :: rest) h1]
      cases h2 : procLines
          (splitNl ((splitNl (buf ++ c1)).getLastD [] ++ c2)).dropLast with
      | mk js2 o2 =>
        have hall : procLines (splitNl (buf ++ (c1 ++ c2))).dropLast =
            (js1 ++ js2, o2) := by
          rw [hdrop, procLines_append_none _ (by rw [h1]), h1, h2]
        cases o2 with
        | some o =>
          rw [decodeLoop_cons_early rest h2,
            decodeLoop_cons_early rest hall]
        | none =>
          rw [decodeLoop_cons_cont rest h2,
            decodeLoop_cons_cont rest hall, hlast, List.append_assoc]

theorem decodeLoop_flatten (cs : List (List Char)) :
    ∀ (c buf : List Char), decodeLoop (c :: cs) buf =
      decodeLoop [c ++ cs.flatten] buf := by
  induction cs with
  | nil => intro c buf; rw [List.flatten_nil, List.append_nil]
  | cons c2 rest ih =>
    intro c buf
    rw [decodeLoop_merge c c2 buf rest, ih (c ++ c2) buf,
      List.flatten_cons, List.append_assoc]

theorem decode_flatten (chunks : List (List Char)) :
    decode chunks = decode [chunks.flatten] := by
  cases chunks with
  | nil => rfl
  | cons c cs =>
    rw [decode, decode, decodeLoop_flatten cs c [], List.flatten_cons]

theorem trimEnd_cons (c : Char) (s : List Char) :
    trimEnd (c :: s) =
      if (trimEnd s).isEmpty && jsWs c then [] else c :: trimEnd s := rfl

theorem trimEnd_eq_nil_iff (s : List Char) :
    trimEnd s = [] ↔ ∀ c ∈ s, jsWs c = true := by
  induction s with
  | nil => simp [trimEnd]
  | cons c r ih =>
    rw [trimEnd_cons]
    by_cases h : (trimEnd r).isEmpty && jsWs c
    · rw [if_pos h]
      simp only [Bool.and_eq_true, List.isEmpty_iff] at h
      constructor
      · intro _ x hx
        rcases List.mem_cons.mp hx with hx | hx
        · rw [hx]; exact h.2
        · exact ih.mp h.1 x hx
      · intro _; rfl
    · rw [if_neg h]
      simp only [Bool.and_eq_true, List.isEmpty_iff] at h
      constructor
      · intro hc; exact absurd hc (List.cons_ne_nil _ _)
      · intro hall
        exact absurd ⟨ih.mpr (fun x hx => hall x (List.mem_cons_of_mem c hx)),
          hall c (List.mem_cons_self c r)⟩ h

theorem trimEnd_append {s : List Char} (h : trimEnd s ≠ []) (t : List Char) :
    trimEnd (t ++ s) = t ++ trimEnd s := by
  induction t with
  | nil => rfl
  | cons a t' ih =>
    rw [List.cons_append, trimEnd_cons, ih, if_neg, List.cons_append]
    simp only [Bool.and_eq_true, List.isEmpty_iff, not_and, List.append_eq_nil]
    intro hnil
    exact absurd hnil.2 h

theorem trimEnd_idem (s : List Char) : trimEnd (trimEnd s) = trimEnd s := by
  induction s with
  | nil => rfl
  | cons c r ih =>
    rw [trimEnd_cons]
    by_cases h : (trimEnd r).isEmpty && jsWs c
    · rw [if_pos h]; rfl
    · rw [if_neg h, trimEnd_cons, ih, if_neg h]

theorem dropWhile_trimEnd (s : List Char) :
    (trimEnd s).dropWhile jsWs = trimEnd (s.dropWhile jsWs) := by
  induction s with
  | nil => rfl
  | cons c r ih =>
    by_cases hc : jsWs c
    · rw [List.dropWhile_cons, if_pos hc, trimEnd_cons]
      by_cases he : (trimEnd r).isEmpty
      · rw [if_pos (by simp [he, hc])]
        rw [List.isEmpty_iff] at he
        have hr : r.dropWhile jsWs = [] :=
          List.dropWhile_eq_nil_iff.mpr (fun x hx =>
            (trimEnd_eq_nil_iff r).mp he x hx)
        rw [hr]
        rfl
      · rw [if_neg (by simp [he]), List.dropWhile_cons, if_pos hc, ih]
    · have hcc : trimEnd (c :: r) = c :: trimEnd r := by
        rw [trimEnd_cons, if_neg (by simp [hc])]
      rw [hcc, List.dropWhile_cons, if_neg hc, List.dropWhile_cons, if_neg hc,
        hcc]

theorem jsTrim_trimEnd (s : List Char) : jsTrim (trimEnd s) = jsTrim s := by
  rw [jsTrim, jsTrim, ← dropWhile_trimEnd, ← dropWhile_trimEnd, trimEnd_idem]

theorem isPrefixOf_append_self (t x : List Char) :
    t.isPrefixOf (t ++ x) = true := by
  induction t with
  | nil => simp
  | cons c r ih => simp [List.cons_append, List.isPrefixOf_cons₂_self, ih]

theorem replaceFirst_append_self {t : List Char} (x : List Char) (h : t ≠ []) :
    replaceFirst (t ++ x) t = x := by
  cases t with
  | nil => exact absurd rfl h
  | cons c r =>
    rw [List.cons_append, replaceFirst, ← List.cons_append,
      if_pos (isPrefixOf_append_self (c :: r) x), List.drop_left]

theorem dropWhile_dataTag (s : List Char) :
    (dataTag ++ s).dropWhile jsWs = dataTag ++ s := by
  rw [dataTag]
  simp only [String.toList]
  rw [List.cons_append, List.dropWhile_cons, if_neg (by decide), ← List.cons_append]

theorem lineContent_dataTag {s : List Char} (h : trimEnd s ≠ []) :
    lineContent (dataTag ++ s) = jsTrim s := by
  rw [lineContent]
  have h1 : jsTrim (dataTag ++ s) = dataTag ++ trimEnd s := by
    rw [jsTrim, dropWhile_dataTag, trimEnd_append h]
  rw [h1, replaceFirst_append_self (trimEnd s) (by decide), jsTrim_trimEnd]

theorem handleError_response (status : Nat) (d : Json) (b : Bool)
    (m : List Char) :
    handleError ⟨some (status, d), b, m⟩ =
      if status = 400 then
        mkValidationError (jsOrString (vendorMessage d) m) (some status) (some d)
      else if status = 401 then
        mkAuthenticationError (jsOrString (vendorMessage d) m) (some status) (some d)
      else if status = 429 then
        mkRateLimitError (jsOrString (vendorMessage d) m) (some status) (some d)
      else
        mkAPIError (jsOrString (vendorMessage d) m) (some status) (some d) := rfl

theorem handleError_response_message (status : Nat) (d : Json) (b : Bool)
    (m : List Char) :
    (handleError ⟨some (status, d), b, m⟩).message = jsOrString (vendorMessage d) m := by
  rw [handleError_response]
  split_ifs <;> rfl

theorem handleError_response_statusCode (status : Nat) (d : Json) (b : Bool)
    (m : List Char) :
    (handleError ⟨some (status, d), b, m⟩).statusCode = some status := by
  rw [handleError_response]
  split_ifs <;> rfl

theorem handleError_response_data (status : Nat) (d : Json) (b : Bool)
    (m : List Char) :
    (handleError ⟨some (status, d), b, m⟩).data = some d := by
  rw [handleError_response]
  split_ifs <;> rfl

theorem jsOrString_some_of_ne {s : List Char} (h : s ≠ []) (m : List Char) :
    jsOrString (some s) m = s := by
  rw [jsOrString, if_neg (by simpa using h)]

theorem contains_of_mem {x : List Char} {l : List (List Char)} (h : x ∈ l) :
    l.contains x = true := by
  simp only [List.contains, List.elem_iff]; exact h

theorem contains_of_not_mem {x : List Char} {l : List (List Char)} (h : x ∉ l) :
    l.contains x = false := by
  simp only [List.contains, Bool.eq_false_iff, ne_eq, List.elem_iff]; exact h

theorem addBatchLoop_all_valid (entries : List ContextEntry) :
    ∀ buf : List ContextEntry, (∀ x ∈ entries, isValidEntry x = true) →
      addBatchLoop buf entries = (buf ++ entries, none) := by
  induction entries with
  | nil => intro buf _; simp [addBatchLoop]
  | cons e es ih =>
    intro buf h
    rw [addBatchLoop, addToContext,
      if_pos (h e (List.mem_cons_self e es))]
    dsimp only
    rw [ih (buf ++ [e]) (fun x hx => h x (List.mem_cons_of_mem e hx))]
    simp

theorem addBatchLoop_stops_at_invalid (pre : List ContextEntry) :
    ∀ (buf : List ContextEntry) (e : ContextEntry) (post : List ContextEntry),
      (∀ x ∈ pre, isValidEntry x = true) → isValidEntry e = false →
      addBatchLoop buf (pre ++ e :: post) =
        (buf ++ pre, some (mkPlainError ctxErrMsg)) := by
  induction pre with
  | nil =>
    intro buf e post _ he
    rw [List.nil_append, addBatchLoop, addToContext, if_neg (by simp [he])]
    simp
  | cons p pre' ih =>
    intro buf e post h he
    rw [List.cons_append, addBatchLoop, addToContext,
      if_pos (h p (List.mem_cons_self p pre'))]
    dsimp only
    rw [ih (buf ++ [p]) e post (fun x hx => h x (List.mem_cons_of_mem p hx)) he]
    simp

/-- C1: streaming decode of the single chunk
`data: \x7b"a":1\x7d\n\ndata: \x7b"b":2\x7d\n\ndata: [DONE]\n` yields exactly
the two parsed objects `\x7b"a":1\x7d` then `\x7b"b":2\x7d`, in that order,
and then terminates on the sentinel with no further items. -/
theorem claim_C1_stream_decode :
    decode ["data: \x7b\"a\":1\x7d\n\ndata: \x7b\"b\":2\x7d\n\ndata: [DONE]\n".toList] =
      ([.obj [("a".toList, .num 1)], .obj [("b".toList, .num 2)]],
        .doneSentinel) := by rfl

/-- C2: the decoder is chunk-boundary independent: any chunking of a byte
stream decodes exactly as the whole stream delivered in one chunk; in
particular the split `data: \x7b"a"` / `:1\x7d\n` yields the same single
item `\x7b"a":1\x7d` as the unsplit stream. -/
theorem claim_C2_chunk_boundary_independent :
    (∀ chunks : List (List Char), decode chunks = decode [chunks.flatten]) ∧
    decode ["data: \x7b\"a\"".toList, ":1\x7d\n".toList] =
      decode ["data: \x7b\"a\":1\x7d\n".toList] ∧
    decode ["data: \x7b\"a\"".toList, ":1\x7d\n".toList] =
      ([.obj [("a".toList, .num 1)]], .endOfStream) :=
  ⟨decode_flatten, by rfl, by rfl⟩

/-- C3 counterexample: with a 401 response whose body is
`\x7b"error":\x7b"message":""\x7d\x7d`, the vendor `error.message` field is
present (it is the empty string), yet the raised fault's message is the
transport's message, not that field — JavaScript `||` treats the empty
string as falsy, so the claim's "the vendor body's error.message field when
present" fails as stated. -/
theorem claim_C3_counterexample :
    vendorMessage (.obj [("error".toList, .obj [("message".toList, .str [])])]) =
      some [] ∧
    (handleError ⟨some (401, .obj [("error".toList,
        .obj [("message".toList, .str [])])]), true,
        "Request failed with status code 401".toList⟩).message =
      "Request failed with status code 401".toList ∧
    "Request failed with status code 401".toList ≠ ([] : List Char) :=
  ⟨rfl, rfl, by decide⟩

/-- C3 (amended): for a response, the raised fault's message is the vendor
body's `error.message` field when present and non-empty, and the transport's
message otherwise; it carries the numeric status and the raw body; status
400 / 401 / 429 select the `ValidationError` / `AuthenticationError` /
`RateLimitError` classes and every other status the `APIError` class; a
request that got no response raises the base `OpenAIError` (distinct from
the four response classes) with message `Network error: ` followed by the
transport's message; and a 401 with body
`\x7b"error":\x7b"message":"Unauthorized"\x7d\x7d` raises an
`AuthenticationError` whose message is exactly `Unauthorized`. -/
theorem claim_C3_amended :
    (∀ (status : Nat) (d : Json) (b : Bool) (m s : List Char),
      vendorMessage d = some s → s ≠ [] →
      (handleError ⟨some (status, d), b, m⟩).message = s) ∧
    (∀ (status : Nat) (d : Json) (b : Bool) (m : List Char),
      vendorMessage d = none →
      (handleError ⟨some (status, d), b, m⟩).message = m) ∧
    (∀ (status : Nat) (d : Json) (b : Bool) (m : List Char),
      (handleError ⟨some (status, d), b, m⟩).statusCode = some status ∧
      (handleError ⟨some (status, d), b, m⟩).data = some d) ∧
    (∀ (d : Json) (b : Bool) (m : List Char),
      (handleError ⟨some (400, d), b, m⟩).name = "ValidationError".toList ∧
      (handleError ⟨some (401, d), b, m⟩).name = "AuthenticationError".toList ∧
      (handleError ⟨some (429, d), b, m⟩).name = "RateLimitError".toList) ∧
    (∀ (status : Nat) (d : Json) (b : Bool) (m : List Char),
      status ≠ 400 → status ≠ 401 → status ≠ 429 →
      (handleError ⟨some (status, d), b, m⟩).name = "APIError".toList) ∧
    (∀ m : List Char,
      handleError ⟨none, true, m⟩ =
        mkOpenAIError ("Network error: ".toList ++ m) none none ∧
      (handleError ⟨none, true, m⟩).name ≠ "ValidationError".toList ∧
      (handleError ⟨none, true, m⟩).name ≠ "AuthenticationError".toList ∧
      (handleError ⟨none, true, m⟩).name ≠ "RateLimitError".toList ∧
      (handleError ⟨none, true, m⟩).name ≠ "APIError".toList) ∧
    handleError ⟨some (401, .obj [("error".toList,
        .obj [("message".toList, .str "Unauthorized".toList)])]), true,
        "Request failed with status code 401".toList⟩ =
      mkAuthenticationError "Unauthorized".toList (some 401)
        (some (.obj [("error".toList,
          .obj [("message".toList, .str "Unauthorized".toList)])])) := by
  refine ⟨?_, ?_, ?_, ?_, ?_, ?_, by rfl⟩
  · intro status d b m s hv hs
    rw [handleError_response_message, hv, jsOrString_some_of_ne hs]
  · intro status d b m hv
    rw [handleError_response_message, hv]
    rfl
  · intro status d b m
    exact ⟨handleError_response_statusCode status d b m,
      handleError_response_data status d b m⟩
  · intro d b m
    refine ⟨?_, ?_, ?_⟩ <;> (rw [handleError_response]; simp) <;> rfl
  · intro status d b m h400 h401 h429
    rw [handleError_response, if_neg h400, if_neg h401, if_neg h429]
    rfl
  · intro m
    exact ⟨rfl, by simp [handleError, mkOpenAIError], by simp [handleError,
      mkOpenAIError], by simp [handleError, mkOpenAIError], by
        simp [handleError, mkOpenAIError]⟩

/-- C3 witness: the amended theorem applied at concrete inputs — a 401
response with the `Unauthorized` body, and a 418 response classified as
`APIError`. -/
theorem claim_C3_amended_witness :
    (handleError ⟨some (401, .obj [("error".toList,
        .obj [("message".toList, .str "Unauthorized".toList)])]), true,
        "t".toList⟩).message = "Unauthorized".toList ∧
    (handleError ⟨some (418, .null), true, "teapot".toList⟩).name =
      "APIError".toList :=
  ⟨claim_C3_amended.1 401 _ true "t".toList "Unauthorized".toList rfl
      (by decide),
    claim_C3_amended.2.2.2.2.1 418 .null true "teapot".toList (by decide)
      (by decide) (by decide)⟩

/-- C4 counterexample: on the invalid entry with role `tool`, `addToContext`
throws a plain built-in `Error`, whose class name `Error` differs from the
`ValidationError` class of errors.ts — so "raises a ValidationError-kind
fault" fails as stated (the rest of the claim, message and unchanged buffer,
holds). -/
theorem claim_C4_counterexample :
    addToContext [] ⟨"tool".toList, .str "hi".toList⟩ =
      ([], some (mkPlainError ctxErrMsg)) ∧
    (mkPlainError ctxErrMsg).name = "Error".toList ∧
    (mkPlainError ctxErrMsg).name ≠
      (mkValidationError ctxErrMsg none none).name :=
  ⟨rfl, rfl, by decide⟩

/-- C4 (amended): for every entry whose role is outside `system` / `user` /
`assistant` or whose content is not a string, `addToContext` throws a plain
built-in `Error` (not the `ValidationError` class) with exactly the
documented message and leaves the buffer unchanged. -/
theorem claim_C4_amended :
    ∀ (buf : List ContextEntry) (e : ContextEntry),
      e.role ∉ validRoles ∨ jsIsString e.content = false →
      addToContext buf e = (buf, some (mkPlainError ctxErrMsg)) ∧
      getContext (addToContext buf e).1 = getContext buf := by
  intro buf e h
  have hv : isValidEntry e = false := by
    rw [isValidEntry]
    rcases h with h | h
    · rw [contains_of_not_mem h]
      rfl
    · rw [h, Bool.and_false]
  rw [addToContext, if_neg (by simp [hv])]
  exact ⟨rfl, rfl⟩

/-- C4 witness: the amended theorem applied to the concrete invalid entry
with role `tool`. -/
theorem claim_C4_amended_witness :
    addToContext [⟨"user".toList, .str "hi".toList⟩]
        ⟨"tool".toList, .str "x".toList⟩ =
      ([⟨"user".toList, .str "hi".toList⟩], some (mkPlainError ctxErrMsg)) :=
  (claim_C4_amended [⟨"user".toList, .str "hi".toList⟩]
    ⟨"tool".toList, .str "x".toList⟩ (Or.inl (by decide))).1

/-- C5: `addBatchToContext` on a non-array input throws with message exactly
`Input must be an array of context entries`; on an array it appends the
entries in order, stopping at the first invalid entry while keeping every
earlier entry appended (no rollback) — in particular `[valid, valid,
invalid]` raises on the third element with the first two appended. -/
theorem claim_C5_append_batch :
    (∀ buf : List ContextEntry,
      addBatchToContext buf none = (buf, some (mkPlainError batchErrMsg))) ∧
    (∀ (buf pre : List ContextEntry) (e : ContextEntry)
        (post : List ContextEntry),
      (∀ x ∈ pre, isValidEntry x = true) → isValidEntry e = false →
      addBatchToContext buf (some (pre ++ e :: post)) =
        (buf ++ pre, some (mkPlainError ctxErrMsg))) ∧
    (∀ (buf entries : List ContextEntry),
      (∀ x ∈ entries, isValidEntry x = true) →
      addBatchToContext buf (some entries) = (buf ++ entries, none)) ∧
    addBatchToContext [] (some [⟨"user".toList, .str "a".toList⟩,
        ⟨"user".toList, .str "b".toList⟩, ⟨"tool".toList, .str "c".toList⟩]) =
      ([⟨"user".toList, .str "a".toList⟩, ⟨"user".toList, .str "b".toList⟩],
        some (mkPlainError ctxErrMsg)) := by
  refine ⟨fun _ => rfl, ?_, ?_, by rfl⟩
  · intro buf pre e post hpre he
    rw [addBatchToContext]
    exact addBatchLoop_stops_at_invalid pre buf e post hpre he
  · intro buf entries hall
    rw [addBatchToContext]
    exact addBatchLoop_all_valid entries buf hall

/-- C5 witness: the batch components applied at concrete inputs — a valid
then invalid pair, and an all-valid batch. -/
theorem claim_C5_append_batch_witness :
    addBatchToContext [] (some ([⟨"user".toList, .str "a".toList⟩] ++
        ⟨"tool".toList, .str "b".toList⟩ :: [])) =
      ([⟨"user".toList, .str "a".toList⟩], some (mkPlainError ctxErrMsg)) ∧
    addBatchToContext [] (some [⟨"system".toList, .str "s".toList⟩]) =
      ([⟨"system".toList, .str "s".toList⟩], none) :=
  ⟨claim_C5_append_batch.2.1 [] [⟨"user".toList, .str "a".toList⟩]
      ⟨"tool".toList, .str "b".toList⟩ [] (by decide) (by decide),
    claim_C5_append_batch.2.2.1 [] [⟨"system".toList, .str "s".toList⟩]
      (by decide)⟩

/-- C6: a line whose payload is exactly `[DONE]` terminates the decoded
sequence immediately: the remaining complete lines after it contribute
nothing, and at the chunk level a terminal outcome ignores the held-back
fragment and every later chunk. -/
theorem claim_C6_done_terminates :
    (∀ (ls1 : List (List Char)) (js : List Json),
      procLines ls1 = (js, none) →
      ∀ (dl : List Char), procLine dl = .done →
      ∀ ls2 : List (List Char),
        procLines (ls1 ++ dl :: ls2) = (js, some .doneSentinel)) ∧
    (∀ (buf chunk : List Char) (js : List Json) (o : Outcome),
      procLines (splitNl (buf ++ chunk)).dropLast = (js, some o) →
      ∀ rest : List (List Char), decodeLoop (chunk :: rest) buf = (js, o)) := by
  constructor
  · intro ls1 js h dl hdl ls2
    rw [procLines_append_none (dl :: ls2) (by rw [h]), h,
      procLines_cons_done ls2 hdl, List.append_nil]
  · intro buf chunk js o h rest
    exact decodeLoop_cons_early rest h

/-- C6 witness: the theorem applied to a chunk carrying an item before the
sentinel and buffered data after it — the trailing complete line, the
held-back fragment, and a whole later chunk are all discarded. -/
theorem claim_C6_done_terminates_witness :
    procLines (["data: \x7b\"a\":1\x7d".toList] ++ "data: [DONE]".toList ::
        ["data: \x7b\"b\":2\x7d".toList]) =
      ([Json.obj [("a".toList, Json.num 1)]], some .doneSentinel) ∧
    decodeLoop ["data: [DONE]\ndata: \x7b\"b\":2\x7d".toList,
        "\ndata: \x7b\"c\":3\x7d\n".toList] [] = ([], .doneSentinel) :=
  ⟨claim_C6_done_terminates.1 ["data: \x7b\"a\":1\x7d".toList]
      [Json.obj [("a".toList, Json.num 1)]] (by rfl)
      "data: [DONE]".toList (by rfl) ["data: \x7b\"b\":2\x7d".toList],
    claim_C6_done_terminates.2 [] "data: [DONE]\ndata: \x7b\"b\":2\x7d".toList
      [] .doneSentinel (by rfl) ["\ndata: \x7b\"c\":3\x7d\n".toList]⟩

/-- C7: a data line whose payload is not valid JSON makes the decoder raise
a parse fault after yielding all earlier items, and nothing is produced
afterwards; concretely, `data: \x7b"a":1\x7d\ndata: not-json\n` yields
`\x7b"a":1\x7d` and then raises. -/
theorem claim_C7_parse_error_terminal :
    (∀ (ls1 : List (List Char)) (js : List Json),
      procLines ls1 = (js, none) →
      ∀ (bad : List Char), procLine bad = .fail →
      ∀ ls2 : List (List Char),
        procLines (ls1 ++ bad :: ls2) = (js, some .parseError)) ∧
    (∀ (buf chunk : List Char) (js : List Json),
      procLines (splitNl (buf ++ chunk)).dropLast = (js, some .parseError) →
      ∀ rest : List (List Char),
        decodeLoop (chunk :: rest) buf = (js, .parseError)) ∧
    decode ["data: \x7b\"a\":1\x7d\ndata: not-json\n".toList] =
      ([.obj [("a".toList, .num 1)]], .parseError) := by
  refine ⟨?_, ?_, by rfl⟩
  · intro ls1 js h bad hbad ls2
    rw [procLines_append_none (bad :: ls2) (by rw [h]), h,
      procLines_cons_fail ls2 hbad, List.append_nil]
  · intro buf chunk js h rest
    exact decodeLoop_cons_early rest h

/-- C7 witness: the theorem applied to the concrete lines of the claim's
example stream. -/
theorem claim_C7_parse_error_witness :
    procLines (["data: \x7b\"a\":1\x7d".toList] ++
        "data: not-json".toList :: []) =
      ([Json.obj [("a".toList, Json.num 1)]], some .parseError) ∧
    decodeLoop ["data: not-json\n".toList] [] = ([], .parseError) :=
  ⟨claim_C7_parse_error_terminal.1 ["data: \x7b\"a\":1\x7d".toList]
      [Json.obj [("a".toList, Json.num 1)]] (by rfl)
      "data: not-json".toList (by rfl) [],
    claim_C7_parse_error_terminal.2.1 [] "data: not-json\n".toList []
      (by rfl) []⟩

/-- C8: the decoder removes exactly the literal `data: ` (with the one
space) and then trims: for any payload `s` that is not all whitespace, the
line `data: ` ++ `s` hands `trim s` to JSON parsing; and the spaceless line
`data:foo` is not stripped, so its payload keeps the `data:` text and JSON
parsing receives (and rejects) `data:foo`. -/
theorem claim_C8_strip_and_trim :
    (∀ s : List Char, trimEnd s ≠ [] →
      lineContent (dataTag ++ s) = jsTrim s) ∧
    lineContent "data:foo".toList = "data:foo".toList ∧
    procLine "data:foo".toList = .fail :=
  ⟨fun _ h => lineContent_dataTag h, by rfl, by rfl⟩

/-- C8 witness: the stripping rule applied to the concrete payload
`\x7b"a":1\x7d` with trailing whitespace. -/
theorem claim_C8_strip_and_trim_witness :
    lineContent (dataTag ++ "\x7b\"a\":1\x7d ".toList) =
      jsTrim "\x7b\"a\":1\x7d ".toList :=
  claim_C8_strip_and_trim.1 "\x7b\"a\":1\x7d ".toList (by decide)

/-- C9: for every valid entry (whitelisted role, string content),
`addToContext` succeeds, the snapshot grows by exactly one, and the new
entry sits at the end, preserving insertion order. -/
theorem claim_C9_valid_append :
    ∀ (buf : List ContextEntry) (e : ContextEntry),
      e.role ∈ validRoles → jsIsString e.content = true →
      addToContext buf e = (buf ++ [e], none) ∧
      (getContext (addToContext buf e).1).length =
        (getContext buf).length + 1 := by
  intro buf e hrole hstr
  have hv : isValidEntry e = true := by
    rw [isValidEntry, contains_of_mem hrole, hstr]
    rfl
  rw [addToContext, if_pos hv]
  exact ⟨rfl, by simp [getContext]⟩

/-- C9 witness: the theorem applied to a concrete valid user entry over a
one-entry buffer. -/
theorem claim_C9_valid_append_witness :
    addToContext [⟨"system".toList, .str "s".toList⟩]
        ⟨"user".toList, .str "hi".toList⟩ =
      ([⟨"system".toList, .str "s".toList⟩,
        ⟨"user".toList, .str "hi".toList⟩], none) :=
  (claim_C9_valid_append [⟨"system".toList, .str "s".toList⟩]
    ⟨"user".toList, .str "hi".toList⟩ (by decide) rfl).1

/-- C10: `createChatCompletion` builds the outgoing messages as the buffered
context entries, in order, followed by the caller's messages, in order,
carries the other options through unchanged, and leaves the context buffer
itself untouched. -/
theorem claim_C10_chat_payload :
    ∀ (context : List ContextEntry) (o : ChatOptions),
      (buildChatPayload context o).1.messages =
        getContext context ++ o.messages ∧
      (buildChatPayload context o).1.model = o.model ∧
      (buildChatPayload context o).1.stream = o.stream ∧
      (buildChatPayload context o).2 = context ∧
      getContext (buildChatPayload context o).2 = getContext context :=
  fun _ _ => ⟨rfl, rfl, rfl, rfl, rfl⟩

end OpenAISDK
